import Mathlib

set_option maxRecDepth 100000

/-!
Verification of the beancount sorter (`crates/beancount-formatter/src/lib.rs`).

The Rust crate sorts dated directives of a plain-text ledger by date inside
boundary-delimited groups while trying to preserve all other bytes.  The
definitions below are a shallow embedding of that crate: source text is a list
of characters, a source line is a list of characters, and the syntax tree
produced by the external tree-sitter provider is supplied as a list of
top-level constructs (the provider is external to the crate and is modelled
from the specification's boundary description).
-/

namespace Beanfmt

/-- A source line (Rust `&str`), modelled as its list of characters. -/
abbrev Line := List Char

/-- Modelled from the spec: the external SyntaxProvider (tree-sitter parsing is
not part of the crate) exposes for each top-level construct its start row and
its end position (row and column, mirroring tree-sitter `end_position()`), and
the text of its date field when it has one (spec sections 2 and 6). -/
structure Construct where
  startRow : Nat
  endRow : Nat
  endCol : Nat
  date : Option String
deriving DecidableEq

/-- Mirror of the Rust struct `DatedDirective` (lib.rs): an inclusive 0-indexed
line range, the raw date text, the verbatim joined text of the span, the
characteristic spacing `blank_lines`, the actual trailing and leading blank
counts, and the index assigned at extraction time. -/
structure DatedDirective where
  linesStart : Nat
  linesEnd : Nat
  date : String
  text : Line
  blank_lines : Nat
  trailing_blank_lines : Nat
  leading_blank_lines : Nat
  original_index : Nat
deriving DecidableEq

/-- Split a character list at every newline character; mirrors the splitting
underlying Rust `str::split('\n')` (every part keeps no `'\n'`). -/
def splitNl : Line → List Line
  | [] => [[]]
  | c :: rest =>
    if c = '\n' then [] :: splitNl rest
    else
      match splitNl rest with
      | [] => [[c]]
      | l :: ls => (c :: l) :: ls

/-- Strip one final carriage return, as Rust `str::lines` does per line. -/
def dropFinalCR (l : Line) : Line :=
  if l.getLast? = some '\r' then l.dropLast else l

/-- Mirror of Rust `content.lines().collect::<Vec<_>>()`: split at `'\n'`,
drop the final empty part produced by a trailing newline, strip a final
`'\r'` from every line. -/
def rustLines (s : Line) : List Line :=
  if s = [] then []
  else
    let parts := splitNl s
    let parts := if parts.getLast? = some [] then parts.dropLast else parts
    parts.map dropFinalCR

/-- Join lines with single newlines; mirror of Rust `Vec::join("\n")`. -/
def joinNL : List Line → Line
  | [] => []
  | [l] => l
  | l :: rest => l ++ '\n' :: joinNL rest

/-- Rust `line.trim().is_empty()`: every character is whitespace (modelled
with `Char.isWhitespace`, the ASCII fragment of Rust's Unicode test). -/
def isBlank (l : Line) : Bool := l.all Char.isWhitespace

/-- Lexicographic strict comparison of character lists.  Rust `String` order
compares UTF-8 byte sequences lexicographically, which agrees with
lexicographic comparison of the scalar values. -/
def lexLtB : List Char → List Char → Bool
  | [], [] => false
  | [], _ :: _ => true
  | _ :: _, [] => false
  | a :: as, b :: bs => if a < b then true else if b < a then false else lexLtB as bs

/-- Rust `a < b` on `String` dates (raw text comparison, no date parsing). -/
def dateLt (a b : String) : Bool := lexLtB a.data b.data

/-- Reading a line by index; the Rust code indexes a `Vec<&str>`, which is
total whenever the index is in bounds (established for the crate's accesses
by the totality theorem below). -/
def lineAt (lines : List Line) (j : Nat) : Line := lines.getD j []

/-- The column-0 end-line adjustment in `extract_dated_directives`: a
tree-sitter end position at column 0 means "start of that line", so the end
row is decremented unless it is already 0. -/
def adjEnd (c : Construct) : Nat :=
  if c.endCol = 0 ∧ c.endRow > 0 then c.endRow - 1 else c.endRow

/-- The constructs matched by the dated-directive query
`(_ date: (date) @date) @directive`: those carrying a date field. -/
def datedConstructs (tree : List Construct) : List (Construct × String) :=
  tree.filterMap fun c => c.date.map fun d => (c, d)

/-- Rust `lines[start_line..=end_line]` joined with `"\n"`. -/
def sliceText (lines : List Line) (s e : Nat) : Line :=
  joinNL ((lines.drop s).take (e + 1 - s))

/-- The first loop of `extract_dated_directives`: one `DatedDirective` per
dated query match, `original_index` assigned in match order, spacing fields
still zero. -/
def rawDirectives (tree : List Construct) (lines : List Line) : List DatedDirective :=
  (datedConstructs tree).enum.map fun p =>
    { linesStart := p.2.1.startRow
      linesEnd := adjEnd p.2.1
      date := p.2.2
      text := sliceText lines p.2.1.startRow (adjEnd p.2.1)
      blank_lines := 0
      trailing_blank_lines := 0
      leading_blank_lines := 0
      original_index := p.1 }

/-- The key order of `directives.sort_by_key(|d| *d.lines.start())`. -/
def startLE (a b : DatedDirective) : Prop := a.linesStart ≤ b.linesStart

instance : DecidableRel startLE := fun a b => Nat.decLe _ _

/-- The key order of `directives.sort_by_key(|d| d.original_index)`. -/
def origLE (a b : DatedDirective) : Prop := a.original_index ≤ b.original_index

instance : DecidableRel origLE := fun a b => Nat.decLe _ _

/-- Rust `directives.sort_by_key(|d| *d.lines.start())`.  Rust's sort is
stable, a stable sort with respect to a total preorder is unique, and
insertion sort is stable, so `List.insertionSort` is a faithful model (and,
unlike merge sort, it is structurally recursive, so concrete runs reduce). -/
def sortByStart (ds : List DatedDirective) : List DatedDirective :=
  ds.insertionSort startLE

/-- Rust `(a..b).take_while(|&j| lines[j].trim().is_empty()).count()`. -/
def countBlanks (lines : List Line) (a b : Nat) : Nat :=
  ((List.range' a (b - a)).takeWhile fun j => isBlank (lineAt lines j)).length

/-- Body of the spacing loop of `extract_dated_directives` for position `i` of
the start-sorted list `ds`: fills `trailing_blank_lines`,
`leading_blank_lines` and the characteristic `blank_lines`. -/
def spacingAt (lines : List Line) (ds : List DatedDirective) (i : Nat)
    (d : DatedDirective) : DatedDirective :=
  let next_start :=
    match ds[i+1]? with
    | some nd => nd.linesStart
    | none => lines.length
  let trailing := countBlanks lines (d.linesEnd + 1) next_start
  let leading :=
    if i > 0 then
      let prev_end :=
        match ds[i-1]? with
        | some pd => pd.linesEnd
        | none => 0
      countBlanks lines (prev_end + 1) d.linesStart
    else 0
  { d with
    trailing_blank_lines := trailing
    leading_blank_lines := leading
    blank_lines :=
      if i = 0 then trailing
      else if i = ds.length - 1 then leading
      else min trailing leading }

/-- The spacing loop of `extract_dated_directives`, applied to the
start-sorted directive list. -/
def withSpacing (lines : List Line) (ds : List DatedDirective) : List DatedDirective :=
  ds.enum.map fun p => spacingAt lines ds p.1 p.2

/-- Mirror of `Formatter::extract_dated_directives`: build the raw list in
match order, stably sort by start line, fill the spacing fields, and stably
re-sort by `original_index`. -/
def extract_dated_directives (tree : List Construct) (lines : List Line) :
    List DatedDirective :=
  (withSpacing lines (sortByStart (rawDirectives tree lines))).insertionSort origLE

/-- Modelled from the spec: the boundary query `(_ !date)` reports the
top-level constructs lacking a date field (spec section 4.2);
`Formatter::find_boundaries` records their start rows in match order. -/
def find_boundaries (tree : List Construct) : List Nat :=
  tree.filterMap fun c => if c.date.isNone then some c.startRow else none

/-- The boundary test of `identify_sortable_groups`: some boundary line lies
strictly between the end of `last` and the start of `d`. -/
def hasBoundaryBetween (bs : List Nat) (last d : DatedDirective) : Bool :=
  bs.any fun b => decide (last.linesEnd < b) && decide (b < d.linesStart)

/-- The `has_boundary` computation of the grouping loop: test the open
group's last directive against the candidate, `false` for an empty group. -/
def openBoundary (bs : List Nat) (cur : List DatedDirective) (d : DatedDirective) : Bool :=
  match cur.getLast? with
  | some last => hasBoundaryBetween bs last d
  | none => false

/-- One iteration of the grouping loop of `identify_sortable_groups`:
`acc.1` is the list of closed groups, `acc.2` the open group. -/
def groupStep (bs : List Nat) (acc : List (List DatedDirective) × List DatedDirective)
    (d : DatedDirective) : List (List DatedDirective) × List DatedDirective :=
  if openBoundary bs acc.2 d && !acc.2.isEmpty then (acc.1 ++ [acc.2], [d])
  else (acc.1, acc.2 ++ [d])

/-- Mirror of `Formatter::identify_sortable_groups`. -/
def identify_sortable_groups (ds : List DatedDirective) (bs : List Nat) :
    List (List DatedDirective) :=
  if ds = [] then []
  else
    let acc := ds.foldl (groupStep bs) ([], [])
    if !acc.2.isEmpty then acc.1 ++ [acc.2] else acc.1

/-- Mirror of `is_sorted`: Rust
`group.directives.is_sorted_by(|a, b| a.date < b.date)`, i.e. every adjacent
pair of dates is strictly increasing. -/
def is_sorted : List DatedDirective → Bool
  | [] => true
  | [_] => true
  | a :: b :: t => dateLt a.date b.date && is_sorted (b :: t)

/-- The sort comparator of `reconstruct_file`:
`a.date.cmp(&b.date).then(a.original_index.cmp(&b.original_index))` rendered
as the corresponding "less or equal" relation. -/
def dirLE (a b : DatedDirective) : Prop :=
  dateLt a.date b.date = true ∨
    (a.date = b.date ∧ a.original_index ≤ b.original_index)

instance : DecidableRel dirLE := fun a b => by unfold dirLE; infer_instance

/-- The per-group stable sort of `reconstruct_file` (Rust `sort_by` is a
stable sort; see `sortByStart` on why insertion sort models it). -/
def sortGroup (g : List DatedDirective) : List DatedDirective :=
  g.insertionSort dirLE

/-- The separator computation of `reconstruct_file`: directives that were
originally consecutive keep the first one's trailing blank count, otherwise
the larger characteristic spacing wins. -/
def separation (a b : DatedDirective) : Nat :=
  if a.original_index + 1 = b.original_index then a.trailing_blank_lines
  else max a.blank_lines b.blank_lines

/-- The `sorted_texts` construction of `reconstruct_file`: each directive's
text followed by `separation` empty lines before the next text. -/
def sortedTexts : List DatedDirective → List Line
  | [] => []
  | [d] => [d.text]
  | a :: b :: t => a.text :: (List.replicate (separation a b) [] ++ sortedTexts (b :: t))

/-- The lines owned by one group in `reconstruct_file`: every line of every
directive's span, plus the trailing blank lines of every directive that is
not last in the group. -/
def ownedOfGroup (g : List DatedDirective) : List Nat :=
  g.enum.flatMap fun p =>
    List.range' p.2.linesStart (p.2.linesEnd + 1 - p.2.linesStart) ++
      (if p.1 < g.length - 1 then List.range' (p.2.linesEnd + 1) p.2.trailing_blank_lines
       else [])

/-- The `directive_lines` set of `reconstruct_file` (membership is all the
code uses, so a list models the hash set). -/
def ownedLines (groups : List (List DatedDirective)) : List Nat :=
  groups.flatMap ownedOfGroup

/-- The `group_start_map` of `reconstruct_file`: for each group with a first
directive, its original start line mapped to the group's emitted texts. -/
def groupStartEntries (groups : List (List DatedDirective)) : List (Nat × List Line) :=
  groups.filterMap fun g => g.head?.map fun f => (f.linesStart, sortedTexts (sortGroup g))

/-- Hash-map lookup where a later insertion overrides an earlier one. -/
def lookupLast (entries : List (Nat × List Line)) (k : Nat) : Option (List Line) :=
  entries.foldl (fun acc e => if e.1 = k then some e.2 else acc) none

/-- The inner skipping loop of `reconstruct_file`: advance `idx` past the
owned lines, never beyond `n`. -/
def skipOwnedFrom (owned : List Nat) (n idx : Nat) : Nat :=
  idx + ((List.range' idx (n - idx)).takeWhile fun j => owned.contains j).length

/-- The main reconstruction loop of `reconstruct_file`, with explicit fuel
(the Rust `while` advances at least one line per iteration on every input the
crate builds, so fuel `lines.length + 1` is never exhausted there). -/
def buildResult (lines : List Line) (entries : List (Nat × List Line))
    (owned : List Nat) : Nat → Nat → List Line
  | 0, _ => []
  | fuel + 1, idx =>
    if idx < lines.length then
      match lookupLast entries idx with
      | some texts =>
          texts ++ buildResult lines entries owned fuel (skipOwnedFrom owned lines.length idx)
      | none =>
          if owned.contains idx then buildResult lines entries owned fuel (idx + 1)
          else lineAt lines idx :: buildResult lines entries owned fuel (idx + 1)
    else []

/-- Rust `content.ends_with('\n')`. -/
def endsWithNl (s : Line) : Bool := decide (s.getLast? = some '\n')

/-- Rust `content.starts_with('\n')`. -/
def startsWithNl (s : Line) : Bool := decide (s.head? = some '\n')

/-- Mirror of `reconstruct_file`: run the reconstruction loop, join with
newlines, restore a missing final newline, and strip leading newlines the
input did not have. -/
def reconstruct_file (content : Line) (groups : List (List DatedDirective)) : Line :=
  let lines := rustLines content
  let result := buildResult lines (groupStartEntries groups) (ownedLines groups)
    (lines.length + 1) 0
  let output := joinNL result
  let output := if endsWithNl content && !endsWithNl output then output ++ ['\n'] else output
  if !startsWithNl content then output.dropWhile (fun c => c = '\n') else output

/-- Mirror of `Formatter::sort_tree_by_date`: extract, group, take the no-op
fast path when every group passes `is_sorted`, otherwise reconstruct. -/
def sort_tree_by_date (content : Line) (tree : List Construct) : Line :=
  let lines := rustLines content
  let directives := extract_dated_directives tree lines
  if directives.isEmpty then content
  else
    let groups := identify_sortable_groups directives (find_boundaries tree)
    if groups.all is_sorted then content
    else reconstruct_file content groups

/-- The exposed operation `sort(content) -> content` of the crate, with the
external parse supplied as the `tree` argument (`Formatter::sort` obtains it
from tree-sitter and immediately calls `sort_tree_by_date`). -/
def sortModel (content : String) (tree : List Construct) : String :=
  ⟨sort_tree_by_date content.data tree⟩

/-- The provider contract of spec section 6: every reported construct
position lies within the source: the span rows are ordered, an end position
at column 0 lies at the start of a row no further than one past the last
line, and any other end position lies on an existing line. -/
def constructOk (n : Nat) (c : Construct) : Prop :=
  c.startRow ≤ c.endRow ∧
    (c.endCol = 0 → c.startRow < c.endRow ∧ c.endRow ≤ n) ∧
    (c.endCol ≠ 0 → c.endRow < n)

instance (n : Nat) (c : Construct) : Decidable (constructOk n c) := by
  unfold constructOk; infer_instance

/-- The provider contract for a whole tree over `n` source lines. -/
def providerOk (tree : List Construct) (n : Nat) : Prop :=
  ∀ c ∈ tree, constructOk n c

instance (tree : List Construct) (n : Nat) : Decidable (providerOk tree n) := by
  unfold providerOk; infer_instance

/-- Every extracted line range is in bounds: the bound the indexing sites of
`extract_dated_directives` need. -/
def rangesOk (ds : List DatedDirective) (n : Nat) : Bool :=
  ds.all fun d => decide (d.linesStart ≤ d.linesEnd) && decide (d.linesEnd < n)

/-- Strict span order: `a`'s span ends before `b`'s begins. -/
def spanLt (a b : DatedDirective) : Prop := a.linesEnd < b.linesStart

instance : DecidableRel spanLt := fun a b => Nat.decLt _ _

/-- The boundary value `β` does not lie strictly between `x`'s end and `y`'s
start (the negation of the grouping loop's split test for one boundary). -/
def noBB (β : Nat) (x y : DatedDirective) : Prop :=
  ¬(x.linesEnd < β ∧ β < y.linesStart)

/-! ### Order lemmas for the comparators -/

theorem lexLtB_irrefl : ∀ l : List Char, lexLtB l l = false := by
  intro l
  induction l with
  | nil => rfl
  | cons c cs ih => simp [lexLtB, ih]

theorem lexLtB_trans : ∀ {x y z : List Char},
    lexLtB x y = true → lexLtB y z = true → lexLtB x z = true := by
  intro x
  induction x with
  | nil =>
    intro y z hxy hyz
    cases y with
    | nil => simp [lexLtB] at hxy
    | cons b bs =>
      cases z with
      | nil => simp [lexLtB] at hyz
      | cons c cs => rfl
  | cons a as ih =>
    intro y z hxy hyz
    cases y with
    | nil => simp [lexLtB] at hxy
    | cons b bs =>
      cases z with
      | nil => simp [lexLtB] at hyz
      | cons c cs =>
        simp only [lexLtB] at hxy hyz ⊢
        rcases lt_trichotomy a b with hab | hab | hab
        · rcases lt_trichotomy b c with hbc | hbc | hbc
          · rw [if_pos (lt_trans hab hbc)]
          · subst hbc
            rw [if_pos hab]
          · rw [if_neg (lt_asymm hbc), if_pos hbc] at hyz
            exact absurd hyz Bool.false_ne_true
        · subst hab
          rw [if_neg (lt_irrefl a), if_neg (lt_irrefl a)] at hxy
          rcases lt_trichotomy a c with hac | hac | hac
          · rw [if_pos hac]
          · subst hac
            rw [if_neg (lt_irrefl a), if_neg (lt_irrefl a)] at hyz ⊢
            exact ih hxy hyz
          · rw [if_neg (lt_asymm hac), if_pos hac] at hyz
            exact absurd hyz Bool.false_ne_true
        · rw [if_neg (lt_asymm hab), if_pos hab] at hxy
          exact absurd hxy Bool.false_ne_true

theorem lexLtB_connex : ∀ {x y : List Char},
    lexLtB x y = false → lexLtB y x = false → x = y := by
  intro x
  induction x with
  | nil =>
    intro y hxy _
    cases y with
    | nil => rfl
    | cons b bs => simp [lexLtB] at hxy
  | cons a as ih =>
    intro y hxy hyx
    cases y with
    | nil => simp [lexLtB] at hyx
    | cons b bs =>
      simp only [lexLtB] at hxy hyx
      rcases lt_trichotomy a b with hab | hab | hab
      · rw [if_pos hab] at hxy
        exact absurd hxy (by decide)
      · subst hab
        rw [if_neg (lt_irrefl a), if_neg (lt_irrefl a)] at hxy hyx
        rw [ih hxy hyx]
      · rw [if_pos hab] at hyx
        exact absurd hyx (by decide)


theorem dateLt_irrefl (s : String) : dateLt s s = false := lexLtB_irrefl s.data

theorem dateLt_asymm {s t : String} (h : dateLt s t = true) : dateLt t s = false := by
  cases hts : dateLt t s with
  | false => rfl
  | true =>
    have h2 : lexLtB s.data s.data = true := lexLtB_trans h hts
    rw [lexLtB_irrefl] at h2
    exact absurd h2 Bool.false_ne_true

theorem dateLt_connex {s t : String} (h1 : dateLt s t = false) (h2 : dateLt t s = false) :
    s = t := by
  have h3 : s.data = t.data := lexLtB_connex h1 h2
  cases s; cases t
  exact congrArg String.mk h3

theorem dirLE_total (a b : DatedDirective) : dirLE a b ∨ dirLE b a := by
  cases hab : dateLt a.date b.date with
  | true => exact Or.inl (Or.inl hab)
  | false =>
    cases hba : dateLt b.date a.date with
    | true => exact Or.inr (Or.inl hba)
    | false =>
      have hd : a.date = b.date := dateLt_connex hab hba
      rcases Nat.le_total a.original_index b.original_index with h | h
      · exact Or.inl (Or.inr ⟨hd, h⟩)
      · exact Or.inr (Or.inr ⟨hd.symm, h⟩)

theorem dirLE_trans {a b c : DatedDirective} (h1 : dirLE a b) (h2 : dirLE b c) :
    dirLE a c := by
  rcases h1 with h1 | ⟨h1d, h1i⟩
  · rcases h2 with h2 | ⟨h2d, _⟩
    · exact Or.inl (lexLtB_trans h1 h2)
    · exact Or.inl (h2d ▸ h1)
  · rcases h2 with h2 | ⟨h2d, h2i⟩
    · exact Or.inl (h1d ▸ h2)
    · exact Or.inr ⟨h1d.trans h2d, le_trans h1i h2i⟩

theorem origLE_total (a b : DatedDirective) : origLE a b ∨ origLE b a :=
  Nat.le_total a.original_index b.original_index

theorem origLE_trans {a b c : DatedDirective} (h1 : origLE a b) (h2 : origLE b c) :
    origLE a c := le_trans h1 h2

theorem startLE_total (a b : DatedDirective) : startLE a b ∨ startLE b a :=
  Nat.le_total a.linesStart b.linesStart

theorem startLE_trans {a b c : DatedDirective} (h1 : startLE a b) (h2 : startLE b c) :
    startLE a c := le_trans h1 h2

/-! ### Shape of the extracted directive list -/

theorem mem_datedConstructs {tree : List Construct} {c : Construct} {s : String} :
    (c, s) ∈ datedConstructs tree ↔ c ∈ tree ∧ c.date = some s := by
  simp only [datedConstructs, List.mem_filterMap]
  constructor
  · rintro ⟨a, ha, hmap⟩
    rcases Option.map_eq_some'.mp hmap with ⟨x, hx, hax⟩
    obtain ⟨rfl, rfl⟩ := Prod.mk.injEq .. ▸ hax
    exact ⟨ha, hx⟩
  · rintro ⟨hc, hd⟩
    exact ⟨c, hc, by rw [hd]; rfl⟩

theorem mem_rawDirectives {tree : List Construct} {lines : List Line} {d : DatedDirective}
    (h : d ∈ rawDirectives tree lines) :
    ∃ c ∈ tree, c.date.isSome ∧ d.linesStart = c.startRow ∧ d.linesEnd = adjEnd c := by
  simp only [rawDirectives, List.mem_map] at h
  obtain ⟨p, hp, rfl⟩ := h
  have hmem : p.2 ∈ datedConstructs tree := by
    have := List.mem_enum_iff_getElem?.mp hp
    exact List.getElem?_mem this
  obtain ⟨hc, hd⟩ := mem_datedConstructs (c := p.2.1) (s := p.2.2) |>.mp hmem
  exact ⟨p.2.1, hc, by rw [hd]; rfl, rfl, rfl⟩

theorem spacingAt_fields (lines : List Line) (ds : List DatedDirective) (i : Nat)
    (d : DatedDirective) :
    (spacingAt lines ds i d).linesStart = d.linesStart ∧
    (spacingAt lines ds i d).linesEnd = d.linesEnd ∧
    (spacingAt lines ds i d).date = d.date ∧
    (spacingAt lines ds i d).text = d.text ∧
    (spacingAt lines ds i d).original_index = d.original_index :=
  ⟨rfl, rfl, rfl, rfl, rfl⟩

theorem mem_withSpacing {lines : List Line} {ds : List DatedDirective} {d : DatedDirective}
    (h : d ∈ withSpacing lines ds) :
    ∃ e ∈ ds, d.linesStart = e.linesStart ∧ d.linesEnd = e.linesEnd ∧
      d.date = e.date ∧ d.text = e.text ∧ d.original_index = e.original_index := by
  simp only [withSpacing, List.mem_map] at h
  obtain ⟨p, hp, rfl⟩ := h
  have hmem : p.2 ∈ ds := List.getElem?_mem (List.mem_enum_iff_getElem?.mp hp)
  exact ⟨p.2, hmem, (spacingAt_fields lines ds p.1 p.2).1,
    (spacingAt_fields lines ds p.1 p.2).2.1, (spacingAt_fields lines ds p.1 p.2).2.2.1,
    (spacingAt_fields lines ds p.1 p.2).2.2.2.1, (spacingAt_fields lines ds p.1 p.2).2.2.2.2⟩

theorem mem_extract_shape {tree : List Construct} {lines : List Line} {d : DatedDirective}
    (h : d ∈ extract_dated_directives tree lines) :
    ∃ c ∈ tree, c.date.isSome ∧ d.linesStart = c.startRow ∧ d.linesEnd = adjEnd c := by
  have h1 : d ∈ withSpacing lines (sortByStart (rawDirectives tree lines)) :=
    (List.perm_insertionSort origLE _).mem_iff.mp h
  obtain ⟨e, he, hs, hend, -⟩ := mem_withSpacing h1
  have h2 : e ∈ rawDirectives tree lines :=
    (List.perm_insertionSort startLE _).mem_iff.mp he
  obtain ⟨c, hc, hsome, hcs, hce⟩ := mem_rawDirectives h2
  exact ⟨c, hc, hsome, hs.trans hcs, hend.trans hce⟩

/-! ### C9: degenerate input is a no-op -/

/-- C9: degenerate-input no-op.  Whenever zero dated directives are found —
in particular for the empty string and for files containing only comments or
non-dated constructs, whose trees have no dated construct — `sort` returns
the input unchanged, verbatim; no error path exists. -/
theorem C9_degenerate_noop (content : String) (tree : List Construct)
    (h : extract_dated_directives tree (rustLines content.data) = []) :
    sortModel content tree = content := by
  have hbody : sort_tree_by_date content.data tree = content.data := by
    simp only [sort_tree_by_date, h, List.isEmpty_nil, if_true]
  show String.mk (sort_tree_by_date content.data tree) = content
  rw [hbody]

/-- Witness for C9 at two concrete degenerate inputs: the empty file with the
empty tree, packaged with a comment-only file whose tree holds a single
non-dated construct. -/
theorem C9_degenerate_noop_witness :
    (extract_dated_directives [] (rustLines ("" : String).data) = [] ∧
      sortModel "" [] = "") ∧
    (extract_dated_directives [⟨0, 0, 11, none⟩]
        (rustLines ("; Comment 1" : String).data) = [] ∧
      sortModel "; Comment 1" [⟨0, 0, 11, none⟩] = "; Comment 1") :=
  ⟨⟨by decide, C9_degenerate_noop "" [] (by decide)⟩,
   ⟨by decide, C9_degenerate_noop "; Comment 1" [⟨0, 0, 11, none⟩] (by decide)⟩⟩

/-! ### C10: totality of extraction under the provider contract -/

/-- C10: totality at the public interface.  Under the provider contract
(`providerOk`), every directive produced by `extract_dated_directives` has a
computed line range with `start ≤ end < lines.length` after the column-0
adjustment, so the slice `lines[start..=end]` is in bounds (it yields exactly
`end - start + 1` lines).  The blank-line scans only read indices strictly
below either another extracted directive's `linesStart` or `lines.length`,
both of which this theorem bounds, so no out-of-bounds access is reachable:
`rangesOk` holds of the whole extracted list. -/
theorem C10_extract_in_bounds (tree : List Construct) (lines : List Line)
    (h : providerOk tree lines.length) :
    rangesOk (extract_dated_directives tree lines) lines.length = true ∧
    ∀ d ∈ extract_dated_directives tree lines,
      d.linesStart ≤ d.linesEnd ∧ d.linesEnd < lines.length ∧
      ((lines.drop d.linesStart).take (d.linesEnd + 1 - d.linesStart)).length
        = d.linesEnd + 1 - d.linesStart := by
  have main : ∀ d ∈ extract_dated_directives tree lines,
      d.linesStart ≤ d.linesEnd ∧ d.linesEnd < lines.length ∧
      ((lines.drop d.linesStart).take (d.linesEnd + 1 - d.linesStart)).length
        = d.linesEnd + 1 - d.linesStart := by
    intro d hd
    obtain ⟨c, hc, -, hs, he⟩ := mem_extract_shape hd
    obtain ⟨hse, hc0, hcn⟩ := h c hc
    have hbounds : d.linesStart ≤ d.linesEnd ∧ d.linesEnd < lines.length := by
      rw [hs, he, adjEnd]
      by_cases h0 : c.endCol = 0 ∧ c.endRow > 0
      · obtain ⟨hlt, hle⟩ := hc0 h0.1
        rw [if_pos h0]
        omega
      · rw [if_neg h0]
        by_cases hcol : c.endCol = 0
        · obtain ⟨hlt, hle⟩ := hc0 hcol
          omega
        · exact ⟨hse, hcn hcol⟩
    refine ⟨hbounds.1, hbounds.2, ?_⟩
    rw [List.length_take, List.length_drop]
    omega
  refine ⟨?_, main⟩
  rw [rangesOk, List.all_eq_true]
  intro d hd
  obtain ⟨h1, h2, -⟩ := main d hd
  simp [h1, h2]

/-- Witness for C10 at a concrete two-directive file satisfying the provider
contract. -/
theorem C10_extract_in_bounds_witness :
    providerOk [⟨0, 1, 0, some "2020-01-02"⟩, ⟨1, 2, 0, some "2020-01-01"⟩]
      (rustLines ("2020-01-02 open Assets:B\n2020-01-01 open Assets:A\n" : String).data).length ∧
    rangesOk
      (extract_dated_directives [⟨0, 1, 0, some "2020-01-02"⟩, ⟨1, 2, 0, some "2020-01-01"⟩]
        (rustLines ("2020-01-02 open Assets:B\n2020-01-01 open Assets:A\n" : String).data))
      (rustLines ("2020-01-02 open Assets:B\n2020-01-01 open Assets:A\n" : String).data).length
      = true :=
  ⟨by decide,
   (C10_extract_in_bounds [⟨0, 1, 0, some "2020-01-02"⟩, ⟨1, 2, 0, some "2020-01-01"⟩]
      (rustLines ("2020-01-02 open Assets:B\n2020-01-01 open Assets:A\n" : String).data)
      (by decide)).1⟩

/-! ### C2: the no-op fast path -/

/-- C2 (counterexample): the claim fails as stated.  In this concrete file
both directives carry the same date, so every sortable group is non-decreasing
under the comparator (date ascending, `original_index` tie-break) — the first
conjunct — yet `sort` does not return the input byte-for-byte: the strict
`is_sorted` test rejects the tie, the file is re-serialized, and the
whitespace-only separator line `" "` comes back as an empty line. -/
theorem C2_noop_tie_counterexample :
    (∀ g ∈ identify_sortable_groups
        (extract_dated_directives [⟨0, 1, 0, some "2020-01-01"⟩, ⟨2, 3, 0, some "2020-01-01"⟩]
          (rustLines ("2020-01-01 open Assets:A\n \n2020-01-01 open Assets:B\n" : String).data))
        (find_boundaries [⟨0, 1, 0, some "2020-01-01"⟩, ⟨2, 3, 0, some "2020-01-01"⟩]),
      g.Pairwise dirLE) ∧
    sortModel "2020-01-01 open Assets:A\n \n2020-01-01 open Assets:B\n"
        [⟨0, 1, 0, some "2020-01-01"⟩, ⟨2, 3, 0, some "2020-01-01"⟩]
      ≠ "2020-01-01 open Assets:A\n \n2020-01-01 open Assets:B\n" :=
  ⟨by decide, by decide⟩

/-- C2 (amended): no-op preservation holds with "non-decreasing (ties
allowed)" strengthened to the strict test the code performs: if every
sortable group passes `is_sorted` — adjacent dates strictly increasing, so no
ties — `sort` returns the original input byte-for-byte, including
trailing-newline state, with no re-serialization. -/
theorem C2_noop_strict (content : String) (tree : List Construct)
    (h : (identify_sortable_groups
        (extract_dated_directives tree (rustLines content.data))
        (find_boundaries tree)).all is_sorted = true) :
    sortModel content tree = content := by
  have hbody : sort_tree_by_date content.data tree = content.data := by
    simp only [sort_tree_by_date, h, eq_self_iff_true, if_true]
    split
    · rfl
    · rfl
  show String.mk (sort_tree_by_date content.data tree) = content
  rw [hbody]

/-- Witness for C2 (amended) at a concrete strictly sorted file. -/
theorem C2_noop_strict_witness :
    ((identify_sortable_groups
        (extract_dated_directives [⟨0, 1, 0, some "2026-01-01"⟩, ⟨1, 2, 0, some "2026-01-02"⟩]
          (rustLines ("2026-01-01 balance Assets:A  100 USD\n2026-01-02 balance Assets:B  200 USD\n" : String).data))
        (find_boundaries [⟨0, 1, 0, some "2026-01-01"⟩, ⟨1, 2, 0, some "2026-01-02"⟩])).all
      is_sorted = true) ∧
    sortModel "2026-01-01 balance Assets:A  100 USD\n2026-01-02 balance Assets:B  200 USD\n"
        [⟨0, 1, 0, some "2026-01-01"⟩, ⟨1, 2, 0, some "2026-01-02"⟩]
      = "2026-01-01 balance Assets:A  100 USD\n2026-01-02 balance Assets:B  200 USD\n" :=
  ⟨by decide, C2_noop_strict _ _ (by decide)⟩

/-! ### C1: idempotence fails on the code -/

/-- C1 (code bug): `sort` is not idempotent.  On a file whose last lines are
blank, every reconstruction pass drops one trailing blank line (the line
vector is joined with `"\n"`, which erases the final empty entry, and the
trailing-newline fix-up restores only one newline).  With two same-date
directives the strict `is_sorted` test keeps selecting the reconstruction
path, so `sort(sort(x)) ≠ sort(x)`: the first pass maps `...\n\n\n` to
`...\n\n`, the second to `...\n`.  This contradicts the crate's documented
guarantee of idempotence and of blank-line preservation. -/
theorem C1_sort_not_idempotent :
    sortModel "2020-01-01 open Assets:A\n2020-01-01 open Assets:B\n\n\n"
        [⟨0, 1, 0, some "2020-01-01"⟩, ⟨1, 2, 0, some "2020-01-01"⟩]
      = "2020-01-01 open Assets:A\n2020-01-01 open Assets:B\n\n" ∧
    sortModel "2020-01-01 open Assets:A\n2020-01-01 open Assets:B\n\n"
        [⟨0, 1, 0, some "2020-01-01"⟩, ⟨1, 2, 0, some "2020-01-01"⟩]
      = "2020-01-01 open Assets:A\n2020-01-01 open Assets:B\n" ∧
    ("2020-01-01 open Assets:A\n2020-01-01 open Assets:B\n" : String)
      ≠ "2020-01-01 open Assets:A\n2020-01-01 open Assets:B\n\n" :=
  ⟨by decide, by decide, by decide⟩

/-! ### C8: the frame property fails on the final blank line -/

/-- C8 (code bug): the frame property fails at the end of the file.  In this
concrete input, line 2 (the final blank line) is owned by no directive —
the last directive of the group keeps its trailing blanks unowned — yet it
does not appear in the output: joining the reconstructed line vector with
`"\n"` erases a final empty line, so the output has no empty line at all.
This contradicts the crate's documented preservation of blank lines. -/
theorem C8_frame_drops_final_blank :
    sortModel "2020-01-02 balance Assets:B  200 USD\n2020-01-01 balance Assets:A  100 USD\n\n"
        [⟨0, 1, 0, some "2020-01-02"⟩, ⟨1, 2, 0, some "2020-01-01"⟩]
      = "2020-01-01 balance Assets:A  100 USD\n2020-01-02 balance Assets:B  200 USD\n" ∧
    (2 ∉ ownedLines (identify_sortable_groups
        (extract_dated_directives [⟨0, 1, 0, some "2020-01-02"⟩, ⟨1, 2, 0, some "2020-01-01"⟩]
          (rustLines ("2020-01-02 balance Assets:B  200 USD\n2020-01-01 balance Assets:A  100 USD\n\n" : String).data))
        (find_boundaries [⟨0, 1, 0, some "2020-01-02"⟩, ⟨1, 2, 0, some "2020-01-01"⟩]))) ∧
    (rustLines ("2020-01-02 balance Assets:B  200 USD\n2020-01-01 balance Assets:A  100 USD\n\n" : String).data).length = 3 ∧
    lineAt (rustLines ("2020-01-02 balance Assets:B  200 USD\n2020-01-01 balance Assets:A  100 USD\n\n" : String).data) 2 = [] ∧
    ([] : Line) ∉ rustLines
      ("2020-01-01 balance Assets:A  100 USD\n2020-01-02 balance Assets:B  200 USD\n" : String).data :=
  ⟨by decide, by decide, by decide, by decide, by decide⟩

/-! ### C5 and C6: the separator laws of reconstruction -/

theorem sortedTexts_cons_cons (a b : DatedDirective) (t : List DatedDirective) :
    sortedTexts (a :: b :: t) =
      a.text :: (List.replicate (separation a b) [] ++ sortedTexts (b :: t)) := rfl

theorem sortedTexts_split (pre : List DatedDirective) (a b : DatedDirective)
    (post : List DatedDirective) :
    ∃ u, sortedTexts (pre ++ a :: b :: post) =
      u ++ a.text :: (List.replicate (separation a b) [] ++ sortedTexts (b :: post)) := by
  induction pre with
  | nil => exact ⟨[], rfl⟩
  | cons p ps ih =>
    obtain ⟨u, hu⟩ := ih
    cases ps with
    | nil =>
      refine ⟨[p.text] ++ List.replicate (separation p a) [], ?_⟩
      rw [show ((p :: ([] : List DatedDirective)) ++ a :: b :: post)
            = p :: a :: b :: post from rfl]
      rw [sortedTexts_cons_cons p a (b :: post), sortedTexts_cons_cons a b post]
      simp
    | cons q qs =>
      refine ⟨[p.text] ++ List.replicate (separation p q) [] ++ u, ?_⟩
      rw [show ((p :: q :: qs) ++ a :: b :: post) = p :: q :: (qs ++ a :: b :: post) from rfl]
      rw [sortedTexts_cons_cons p q (qs ++ a :: b :: post)]
      rw [show (q :: (qs ++ a :: b :: post)) = ((q :: qs) ++ a :: b :: post) from rfl, hu]
      simp

/-- C5: adjacent spacing law.  If `a` and `b` sit adjacently (in this order)
in a group's sorted output and `b.original_index = a.original_index + 1`
(they were adjacent in the original document as well), the emitted texts put
exactly `a.trailing_blank_lines` blank lines between `a`'s text and `b`'s
text. -/
theorem C5_adjacent_spacing (g pre post : List DatedDirective) (a b : DatedDirective)
    (hsplit : sortGroup g = pre ++ a :: b :: post)
    (hadj : a.original_index + 1 = b.original_index) :
    ∃ u, sortedTexts (sortGroup g) =
      u ++ a.text :: (List.replicate a.trailing_blank_lines [] ++ sortedTexts (b :: post)) := by
  have hsep : separation a b = a.trailing_blank_lines := by
    rw [separation, if_pos hadj]
  obtain ⟨u, hu⟩ := sortedTexts_split pre a b post
  exact ⟨u, by rw [hsplit, hu, hsep]⟩

/-- Witness for C5 at a concrete two-directive group that stays in order. -/
theorem C5_adjacent_spacing_witness :
    sortGroup [⟨0, 0, "2020-01-01", ['a'], 0, 2, 0, 0⟩, ⟨1, 1, "2020-01-02", ['b'], 0, 0, 1, 1⟩]
      = [] ++ (⟨0, 0, "2020-01-01", ['a'], 0, 2, 0, 0⟩ : DatedDirective)
          :: (⟨1, 1, "2020-01-02", ['b'], 0, 0, 1, 1⟩ : DatedDirective) :: [] ∧
    (⟨0, 0, "2020-01-01", ['a'], 0, 2, 0, 0⟩ : DatedDirective).original_index + 1
      = (⟨1, 1, "2020-01-02", ['b'], 0, 0, 1, 1⟩ : DatedDirective).original_index ∧
    ∃ u, sortedTexts (sortGroup
        [⟨0, 0, "2020-01-01", ['a'], 0, 2, 0, 0⟩, ⟨1, 1, "2020-01-02", ['b'], 0, 0, 1, 1⟩])
      = u ++ (⟨0, 0, "2020-01-01", ['a'], 0, 2, 0, 0⟩ : DatedDirective).text
          :: (List.replicate
                (⟨0, 0, "2020-01-01", ['a'], 0, 2, 0, 0⟩ : DatedDirective).trailing_blank_lines []
              ++ sortedTexts [⟨1, 1, "2020-01-02", ['b'], 0, 0, 1, 1⟩]) :=
  ⟨by decide, by decide,
   C5_adjacent_spacing _ [] [] _ _ (by decide) (by decide)⟩

/-- C6: non-adjacent spacing law.  First conjunct: extraction stores as
`blank_lines` (the characteristic spacing) the directive's own
`trailing_blank_lines` at position 0 of the document-ordered list, its
`leading_blank_lines` at the last position, and the minimum of the two
elsewhere.  Second conjunct: if `a` and `b` sit adjacently in a group's
sorted output but were not adjacent originally
(`b.original_index ≠ a.original_index + 1`), the emitted texts put exactly
`max a.blank_lines b.blank_lines` blank lines between their texts. -/
theorem C6_nonadjacent_spacing :
    (∀ (lines : List Line) (ds : List DatedDirective) (i : Nat) (d : DatedDirective),
      ds[i]? = some d →
      (withSpacing lines ds)[i]? = some (spacingAt lines ds i d) ∧
      (spacingAt lines ds i d).blank_lines =
        (if i = 0 then (spacingAt lines ds i d).trailing_blank_lines
         else if i = ds.length - 1 then (spacingAt lines ds i d).leading_blank_lines
         else min (spacingAt lines ds i d).trailing_blank_lines
           (spacingAt lines ds i d).leading_blank_lines)) ∧
    (∀ (g pre post : List DatedDirective) (a b : DatedDirective),
      sortGroup g = pre ++ a :: b :: post →
      a.original_index + 1 ≠ b.original_index →
      ∃ u, sortedTexts (sortGroup g) =
        u ++ a.text :: (List.replicate (max a.blank_lines b.blank_lines) []
          ++ sortedTexts (b :: post))) := by
  constructor
  · intro lines ds i d h
    constructor
    · simp [withSpacing, List.getElem?_map, List.getElem?_enum, h]
    · rfl
  · intro g pre post a b hsplit hadj
    have hsep : separation a b = max a.blank_lines b.blank_lines := by
      rw [separation, if_neg hadj]
    obtain ⟨u, hu⟩ := sortedTexts_split pre a b post
    exact ⟨u, by rw [hsplit, hu, hsep]⟩

/-- Witness for C6: the characteristic-spacing rule evaluated at position 0
of a singleton list, and the max-of-characteristic-spacing separator at a
concrete group whose two directives swap order. -/
theorem C6_nonadjacent_spacing_witness :
    (([(⟨0, 0, "2020-01-01", ['a'], 0, 2, 0, 0⟩ : DatedDirective)] :
        List DatedDirective)[0]? = some ⟨0, 0, "2020-01-01", ['a'], 0, 2, 0, 0⟩ ∧
      (withSpacing [] [⟨0, 0, "2020-01-01", ['a'], 0, 2, 0, 0⟩])[0]?
        = some (spacingAt [] [⟨0, 0, "2020-01-01", ['a'], 0, 2, 0, 0⟩] 0
            ⟨0, 0, "2020-01-01", ['a'], 0, 2, 0, 0⟩) ∧
      (spacingAt [] [⟨0, 0, "2020-01-01", ['a'], 0, 2, 0, 0⟩] 0
          ⟨0, 0, "2020-01-01", ['a'], 0, 2, 0, 0⟩).blank_lines
        = (spacingAt [] [⟨0, 0, "2020-01-01", ['a'], 0, 2, 0, 0⟩] 0
            ⟨0, 0, "2020-01-01", ['a'], 0, 2, 0, 0⟩).trailing_blank_lines) ∧
    (sortGroup [⟨2, 2, "2020-01-02", ['b'], 3, 0, 1, 0⟩, ⟨0, 0, "2020-01-01", ['a'], 1, 2, 0, 1⟩]
        = [] ++ (⟨0, 0, "2020-01-01", ['a'], 1, 2, 0, 1⟩ : DatedDirective)
            :: (⟨2, 2, "2020-01-02", ['b'], 3, 0, 1, 0⟩ : DatedDirective) :: [] ∧
      (⟨0, 0, "2020-01-01", ['a'], 1, 2, 0, 1⟩ : DatedDirective).original_index + 1
        ≠ (⟨2, 2, "2020-01-02", ['b'], 3, 0, 1, 0⟩ : DatedDirective).original_index ∧
      ∃ u, sortedTexts (sortGroup
          [⟨2, 2, "2020-01-02", ['b'], 3, 0, 1, 0⟩, ⟨0, 0, "2020-01-01", ['a'], 1, 2, 0, 1⟩])
        = u ++ (⟨0, 0, "2020-01-01", ['a'], 1, 2, 0, 1⟩ : DatedDirective).text
            :: (List.replicate
                  (max (⟨0, 0, "2020-01-01", ['a'], 1, 2, 0, 1⟩ : DatedDirective).blank_lines
                    (⟨2, 2, "2020-01-02", ['b'], 3, 0, 1, 0⟩ : DatedDirective).blank_lines) []
                ++ sortedTexts [⟨2, 2, "2020-01-02", ['b'], 3, 0, 1, 0⟩])) := by
  constructor
  · refine ⟨by decide, ?_, ?_⟩
    · exact (C6_nonadjacent_spacing.1 [] _ 0 _ (by decide)).1
    · have h := (C6_nonadjacent_spacing.1 [] [⟨0, 0, "2020-01-01", ['a'], 0, 2, 0, 0⟩] 0
        ⟨0, 0, "2020-01-01", ['a'], 0, 2, 0, 0⟩ (by decide)).2
      simpa using h
  · exact ⟨by decide, by decide,
      C6_nonadjacent_spacing.2 _ [] [] _ _ (by decide) (by decide)⟩

/-! ### Structure of the grouping loop -/

theorem foldl_groupStep_join (bs : List Nat) :
    ∀ (l : List DatedDirective) (gs : List (List DatedDirective)) (cur : List DatedDirective),
    (l.foldl (groupStep bs) (gs, cur)).1.flatten ++ (l.foldl (groupStep bs) (gs, cur)).2
      = gs.flatten ++ (cur ++ l) := by
  intro l
  induction l with
  | nil => intro gs cur; simp
  | cons d t ih =>
    intro gs cur
    by_cases hb : (openBoundary bs cur d && !cur.isEmpty) = true
    · have hstep : groupStep bs (gs, cur) d = (gs ++ [cur], [d]) := by
        rw [groupStep, if_pos hb]
      rw [List.foldl_cons, hstep, ih]
      simp
    · have hstep : groupStep bs (gs, cur) d = (gs, cur ++ [d]) := by
        rw [groupStep, if_neg hb]
      rw [List.foldl_cons, hstep, ih]
      simp

theorem foldl_groupStep_chain (bs : List Nat) :
    ∀ (l : List DatedDirective) (gs : List (List DatedDirective)) (cur : List DatedDirective),
    (∀ g ∈ gs, g.Chain' fun x y => hasBoundaryBetween bs x y = false) →
    (cur.Chain' fun x y => hasBoundaryBetween bs x y = false) →
    (∀ g ∈ (l.foldl (groupStep bs) (gs, cur)).1,
        g.Chain' fun x y => hasBoundaryBetween bs x y = false) ∧
      ((l.foldl (groupStep bs) (gs, cur)).2.Chain'
        fun x y => hasBoundaryBetween bs x y = false) := by
  intro l
  induction l with
  | nil => intro gs cur h1 h2; exact ⟨h1, h2⟩
  | cons d t ih =>
    intro gs cur h1 h2
    by_cases hb : (openBoundary bs cur d && !cur.isEmpty) = true
    · have hstep : groupStep bs (gs, cur) d = (gs ++ [cur], [d]) := by
        rw [groupStep, if_pos hb]
      rw [List.foldl_cons, hstep]
      refine ih (gs ++ [cur]) [d] ?_ (List.chain'_singleton d)
      intro g hg
      rcases List.mem_append.mp hg with h | h
      · exact h1 g h
      · rw [List.mem_singleton.mp h]
        exact h2
    · have hstep : groupStep bs (gs, cur) d = (gs, cur ++ [d]) := by
        rw [groupStep, if_neg hb]
      rw [List.foldl_cons, hstep]
      refine ih gs (cur ++ [d]) h1 ?_
      have hb' : (openBoundary bs cur d && !cur.isEmpty) = false := by
        cases hx : (openBoundary bs cur d && !cur.isEmpty) with
        | true => exact absurd hx hb
        | false => rfl
      rw [List.chain'_append]
      refine ⟨h2, List.chain'_singleton d, ?_⟩
      intro x hx y hy
      have hy' : y = d := by
        have := hy
        simp only [List.head?_cons, Option.mem_def, Option.some.injEq] at this
        exact this.symm
      subst hy'
      have hxl : cur.getLast? = some x := Option.mem_def.mp hx
      have hne : cur ≠ [] := by
        intro hcur
        rw [hcur] at hxl
        cases hxl
      have hemp : cur.isEmpty = false := by
        cases cur with
        | nil => exact absurd rfl hne
        | cons _ _ => rfl
      rcases Bool.and_eq_false_iff.mp hb' with h | h
      · rw [openBoundary, hxl] at h
        exact h
      · rw [hemp] at h
        cases h

theorem foldl_groupStep_ne_nil (bs : List Nat) :
    ∀ (l : List DatedDirective) (gs : List (List DatedDirective)) (cur : List DatedDirective),
    (∀ g ∈ gs, g ≠ []) →
    ∀ g ∈ (l.foldl (groupStep bs) (gs, cur)).1, g ≠ [] := by
  intro l
  induction l with
  | nil => intro gs cur h1; exact h1
  | cons d t ih =>
    intro gs cur h1
    by_cases hb : (openBoundary bs cur d && !cur.isEmpty) = true
    · have hstep : groupStep bs (gs, cur) d = (gs ++ [cur], [d]) := by
        rw [groupStep, if_pos hb]
      rw [List.foldl_cons, hstep]
      refine ih (gs ++ [cur]) [d] ?_
      intro g hg
      rcases List.mem_append.mp hg with h | h
      · exact h1 g h
      · rw [List.mem_singleton.mp h]
        have hcur := (Bool.and_eq_true _ _ ▸ hb).2
        intro hnil
        rw [hnil] at hcur
        cases hcur
    · have hstep : groupStep bs (gs, cur) d = (gs, cur ++ [d]) := by
        rw [groupStep, if_neg hb]
      rw [List.foldl_cons, hstep]
      exact ih gs (cur ++ [d]) h1

theorem groups_join (ds : List DatedDirective) (bs : List Nat) :
    (identify_sortable_groups ds bs).flatten = ds := by
  by_cases hds : ds = []
  · rw [hds]
    rfl
  · have h := foldl_groupStep_join bs ds [] []
    simp only [List.flatten_nil, List.nil_append] at h
    simp only [identify_sortable_groups, if_neg hds]
    by_cases hx : ((ds.foldl (groupStep bs) ([], [])).2.isEmpty) = true
    · have hnil := List.isEmpty_iff.mp hx
      rw [hnil, List.append_nil] at h
      simp only [hx, Bool.not_true, Bool.false_eq_true, if_false]
      exact h
    · have hfalse : ((ds.foldl (groupStep bs) ([], [])).2.isEmpty) = false := by
        cases hy : ((ds.foldl (groupStep bs) ([], [])).2.isEmpty) with
        | true => exact absurd hy hx
        | false => rfl
      simp only [hfalse, Bool.not_false, if_true, List.flatten_append, List.flatten_cons,
        List.flatten_nil, List.append_nil]
      exact h

theorem groups_chain {ds : List DatedDirective} {bs : List Nat}
    {g : List DatedDirective} (hg : g ∈ identify_sortable_groups ds bs) :
    g.Chain' fun x y => hasBoundaryBetween bs x y = false := by
  by_cases hds : ds = []
  · rw [identify_sortable_groups, if_pos hds] at hg
    cases hg
  · have h := foldl_groupStep_chain bs ds [] [] (by intro g hg'; cases hg') List.chain'_nil
    simp only [identify_sortable_groups, if_neg hds] at hg
    by_cases hx : ((ds.foldl (groupStep bs) ([], [])).2.isEmpty) = true
    · simp only [hx, Bool.not_true, Bool.false_eq_true, if_false] at hg
      exact h.1 g hg
    · have hfalse : ((ds.foldl (groupStep bs) ([], [])).2.isEmpty) = false := by
        cases hy : ((ds.foldl (groupStep bs) ([], [])).2.isEmpty) with
        | true => exact absurd hy hx
        | false => rfl
      simp only [hfalse, Bool.not_false, if_true] at hg
      rcases List.mem_append.mp hg with h' | h'
      · exact h.1 g h'
      · rw [List.mem_singleton.mp h']
        exact h.2

theorem groups_ne_nil {ds : List DatedDirective} {bs : List Nat}
    {g : List DatedDirective} (hg : g ∈ identify_sortable_groups ds bs) : g ≠ [] := by
  by_cases hds : ds = []
  · rw [identify_sortable_groups, if_pos hds] at hg
    cases hg
  · have h := foldl_groupStep_ne_nil bs ds [] [] (by intro g hg'; cases hg')
    simp only [identify_sortable_groups, if_neg hds] at hg
    by_cases hx : ((ds.foldl (groupStep bs) ([], [])).2.isEmpty) = true
    · simp only [hx, Bool.not_true, Bool.false_eq_true, if_false] at hg
      exact h g hg
    · have hfalse : ((ds.foldl (groupStep bs) ([], [])).2.isEmpty) = false := by
        cases hy : ((ds.foldl (groupStep bs) ([], [])).2.isEmpty) with
        | true => exact absurd hy hx
        | false => rfl
      simp only [hfalse, Bool.not_false, if_true] at hg
      rcases List.mem_append.mp hg with h' | h'
      · exact h g h'
      · rw [List.mem_singleton.mp h']
        intro hnil
        rw [hnil] at hfalse
        cases hfalse

theorem groups_sublist {ds : List DatedDirective} {bs : List Nat}
    {g : List DatedDirective} (hg : g ∈ identify_sortable_groups ds bs) :
    List.Sublist g ds := by
  obtain ⟨s, t, hst⟩ := List.append_of_mem hg
  have hj := groups_join ds bs
  rw [hst, List.flatten_append, List.flatten_cons] at hj
  rw [← hj]
  exact List.sublist_append_of_sublist_right (List.sublist_append_left _ _)

/-! ### C3: boundaries are never crossed -/

theorem hasBB_false_noBB {bs : List Nat} {β : Nat} (hβ : β ∈ bs) {x y : DatedDirective}
    (h : hasBoundaryBetween bs x y = false) : noBB β x y := by
  rintro ⟨h1, h2⟩
  have htrue : hasBoundaryBetween bs x y = true := by
    rw [hasBoundaryBetween, List.any_eq_true]
    exact ⟨β, hβ, by simp [h1, h2]⟩
  rw [h] at htrue
  cases htrue

theorem chain_noBB_head {β : Nat} :
    ∀ (t : List DatedDirective) (x : DatedDirective),
    (x :: t).Chain' (noBB β) → (x :: t).Pairwise spanLt →
    (∀ d ∈ x :: t, ¬(d.linesStart ≤ β ∧ β ≤ d.linesEnd)) →
    ∀ y ∈ t, noBB β x y := by
  intro t
  induction t with
  | nil =>
    intro x _ _ _ y hy
    cases hy
  | cons q qs ih =>
    intro x hch hpw hav y hy
    have hch' := List.chain'_cons.mp hch
    rcases List.mem_cons.mp hy with rfl | hy'
    · exact hch'.1
    · have hq : noBB β q y := ih q hch'.2 (List.pairwise_cons.mp hpw).2
        (fun d hd => hav d (List.mem_cons_of_mem x hd)) y hy'
      rintro ⟨h1, h2⟩
      have havq := hav q (by simp)
      by_cases hc : β < q.linesStart
      · exact hch'.1 ⟨h1, hc⟩
      · push_neg at hc
        have hgt : q.linesEnd < β := by
          rcases Nat.lt_or_ge q.linesEnd β with hlt | hge
          · exact hlt
          · exact absurd ⟨hc, hge⟩ havq
        exact hq ⟨hgt, h2⟩

theorem chain_pairwise_noBB {β : Nat} :
    ∀ (l : List DatedDirective),
    l.Chain' (noBB β) → l.Pairwise spanLt →
    (∀ d ∈ l, ¬(d.linesStart ≤ β ∧ β ≤ d.linesEnd)) →
    l.Pairwise (noBB β) := by
  intro l
  induction l with
  | nil =>
    intro _ _ _
    exact List.Pairwise.nil
  | cons x t ih =>
    intro hch hpw hav
    refine List.pairwise_cons.mpr ⟨?_, ?_⟩
    · exact chain_noBB_head t x hch hpw hav
    · exact ih (List.chain'_cons'.mp hch).2 (List.pairwise_cons.mp hpw).2
        (fun d hd => hav d (List.mem_cons_of_mem x hd))

theorem split_of_separated :
    ∀ (Gs : List (List DatedDirective)) (a c : DatedDirective),
    (Gs.flatten).Pairwise spanLt →
    (∀ d ∈ Gs.flatten, d.linesStart ≤ d.linesEnd) →
    a ∈ Gs.flatten → c ∈ Gs.flatten →
    (∀ g ∈ Gs, ¬(a ∈ g ∧ c ∈ g)) →
    a.linesEnd < c.linesStart →
    ∃ u v, (Gs.map sortGroup).flatten = u ++ v ∧ a ∈ u ∧ c ∈ v := by
  intro Gs
  induction Gs with
  | nil =>
    intro a c _ _ ha _ _ _
    simp at ha
  | cons g Gs' ih =>
    intro a c hpw hse ha hc hng hlt
    rw [List.flatten_cons] at ha hc hpw hse
    rcases List.mem_append.mp ha with hag | hag
    · have hcg : c ∉ g := fun hcg => hng g (List.mem_cons_self g Gs') ⟨hag, hcg⟩
      have hc' : c ∈ Gs'.flatten := by
        rcases List.mem_append.mp hc with h | h
        · exact absurd h hcg
        · exact h
      refine ⟨sortGroup g, (Gs'.map sortGroup).flatten, ?_, ?_, ?_⟩
      · rw [List.map_cons, List.flatten_cons]
      · exact (List.perm_insertionSort dirLE g).mem_iff.mpr hag
      · obtain ⟨g', hg', hcg'⟩ := List.mem_flatten.mp hc'
        exact List.mem_flatten.mpr ⟨sortGroup g', List.mem_map_of_mem _ hg',
          (List.perm_insertionSort dirLE g').mem_iff.mpr hcg'⟩
    · have hcg : c ∉ g := by
        intro hcg
        have hca : c.linesEnd < a.linesStart :=
          (List.pairwise_append.mp hpw).2.2 c hcg a hag
        have hc1 := hse c (List.mem_append_left _ hcg)
        have ha1 := hse a (List.mem_append_right _ hag)
        omega
      have hc' : c ∈ Gs'.flatten := by
        rcases List.mem_append.mp hc with h | h
        · exact absurd h hcg
        · exact h
      obtain ⟨u, v, huv, hau, hcv⟩ := ih a c (List.pairwise_append.mp hpw).2.1
        (fun d hd => hse d (List.mem_append_right _ hd)) hag hc'
        (fun g' hg' => hng g' (List.mem_cons_of_mem _ hg')) hlt
      refine ⟨sortGroup g ++ u, v, ?_, List.mem_append_right _ hau, hcv⟩
      rw [List.map_cons, List.flatten_cons, huv, List.append_assoc]

/-- C3: boundary respect.  Let the extracted directive list satisfy the
spec's data-model invariant (spans valid and strictly increasing) and let the
boundary value `β` lie on no directive's span (in the provider model a
boundary is a top-level construct disjoint from every directive).  Then two
directives with `β` strictly between the earlier one's end and the later
one's start are never members of one sortable group, and in the concatenated
sorted output (the groups' sorted contents in group order, exactly what
reconstruction emits) the earlier one still precedes the later one. -/
theorem C3_boundary_respect (ds : List DatedDirective) (bs : List Nat) (β : Nat)
    (hpw : ds.Pairwise spanLt)
    (hse : ∀ d ∈ ds, d.linesStart ≤ d.linesEnd)
    (hav : ∀ d ∈ ds, ¬(d.linesStart ≤ β ∧ β ≤ d.linesEnd))
    (hβ : β ∈ bs) (a c : DatedDirective) (ha : a ∈ ds) (hc : c ∈ ds)
    (h1 : a.linesEnd < β) (h2 : β < c.linesStart) :
    (∀ g ∈ identify_sortable_groups ds bs, ¬(a ∈ g ∧ c ∈ g)) ∧
    ∃ u v, ((identify_sortable_groups ds bs).map sortGroup).flatten = u ++ v ∧
      a ∈ u ∧ c ∈ v := by
  have hsame : ∀ g ∈ identify_sortable_groups ds bs, ¬(a ∈ g ∧ c ∈ g) := by
    rintro g hg ⟨hag, hcg⟩
    have hsub := groups_sublist hg
    have hgpw : g.Pairwise spanLt := List.Pairwise.sublist hsub hpw
    have hgse : ∀ d ∈ g, d.linesStart ≤ d.linesEnd := fun d hd => hse d (hsub.subset hd)
    have hgav : ∀ d ∈ g, ¬(d.linesStart ≤ β ∧ β ≤ d.linesEnd) :=
      fun d hd => hav d (hsub.subset hd)
    have hchain : g.Chain' (noBB β) :=
      (groups_chain hg).imp fun x y h => hasBB_false_noBB hβ h
    have hpair : g.Pairwise (noBB β) := chain_pairwise_noBB g hchain hgpw hgav
    have hrev : g.Pairwise fun x y => noBB β y x := by
      refine List.Pairwise.imp_of_mem ?_ hgpw
      intro x y hx hy hxy
      rintro ⟨hy1, hy2⟩
      have hx1 := hgse x hx
      have hy1' := hgse y hy
      have hxy' : x.linesEnd < y.linesStart := hxy
      omega
    have hand := hpair.and hrev
    by_cases hac : a = c
    · subst hac
      have h3 := hse a ha
      omega
    · have hS : Symmetric fun x y : DatedDirective => noBB β x y ∧ noBB β y x :=
        fun x y h => ⟨h.2, h.1⟩
      exact (hand.forall hS hag hcg hac).1 ⟨h1, h2⟩
  refine ⟨hsame, ?_⟩
  apply split_of_separated
  · rw [groups_join]
    exact hpw
  · rw [groups_join]
    exact hse
  · rw [groups_join]
    exact ha
  · rw [groups_join]
    exact hc
  · exact hsame
  · omega

/-- Witness for C3: two separated single-line directives with the boundary
line 1 between them. -/
theorem C3_boundary_respect_witness :
    (([⟨0, 0, "2020-01-02", [], 0, 0, 0, 0⟩, ⟨2, 2, "2020-01-01", [], 0, 0, 0, 1⟩] :
        List DatedDirective).Pairwise spanLt) ∧
    (∀ d ∈ ([⟨0, 0, "2020-01-02", [], 0, 0, 0, 0⟩, ⟨2, 2, "2020-01-01", [], 0, 0, 0, 1⟩] :
        List DatedDirective), ¬(d.linesStart ≤ 1 ∧ 1 ≤ d.linesEnd)) ∧
    ((∀ g ∈ identify_sortable_groups
        [⟨0, 0, "2020-01-02", [], 0, 0, 0, 0⟩, ⟨2, 2, "2020-01-01", [], 0, 0, 0, 1⟩] [1],
        ¬((⟨0, 0, "2020-01-02", [], 0, 0, 0, 0⟩ : DatedDirective) ∈ g ∧
          (⟨2, 2, "2020-01-01", [], 0, 0, 0, 1⟩ : DatedDirective) ∈ g)) ∧
      ∃ u v, ((identify_sortable_groups
          [⟨0, 0, "2020-01-02", [], 0, 0, 0, 0⟩, ⟨2, 2, "2020-01-01", [], 0, 0, 0, 1⟩]
          [1]).map sortGroup).flatten = u ++ v ∧
        (⟨0, 0, "2020-01-02", [], 0, 0, 0, 0⟩ : DatedDirective) ∈ u ∧
        (⟨2, 2, "2020-01-01", [], 0, 0, 0, 1⟩ : DatedDirective) ∈ v) :=
  ⟨by decide, by decide,
   C3_boundary_respect
     [⟨0, 0, "2020-01-02", [], 0, 0, 0, 0⟩, ⟨2, 2, "2020-01-01", [], 0, 0, 0, 1⟩]
     [1] 1 (by decide) (by decide) (by decide) (by decide)
     ⟨0, 0, "2020-01-02", [], 0, 0, 0, 0⟩ ⟨2, 2, "2020-01-01", [], 0, 0, 0, 1⟩
     (by decide) (by decide) (by decide) (by decide)⟩

/-! ### C4: stability of the per-group sort -/

theorem map_orig_raw (tree : List Construct) (lines : List Line) :
    (rawDirectives tree lines).map (fun d => d.original_index)
      = List.range (datedConstructs tree).length := by
  rw [rawDirectives, List.map_map]
  exact List.enum_map_fst _

theorem map_orig_withSpacing (lines : List Line) (ds : List DatedDirective) :
    (withSpacing lines ds).map (fun d => d.original_index)
      = ds.map fun d => d.original_index := by
  rw [withSpacing, List.map_map]
  have h1 : ((fun d : DatedDirective => d.original_index) ∘
        fun p : Nat × DatedDirective => spacingAt lines ds p.1 p.2)
      = (fun d : DatedDirective => d.original_index) ∘ Prod.snd := rfl
  rw [h1, ← List.map_map, List.enum_map_snd]

theorem extract_orig_nodup (tree : List Construct) (lines : List Line) :
    ((extract_dated_directives tree lines).map fun d => d.original_index).Nodup := by
  have p1 : List.Perm
      ((extract_dated_directives tree lines).map fun d => d.original_index)
      ((withSpacing lines (sortByStart (rawDirectives tree lines))).map
        fun d => d.original_index) :=
    (List.perm_insertionSort origLE _).map _
  rw [map_orig_withSpacing] at p1
  have p2 : List.Perm
      ((sortByStart (rawDirectives tree lines)).map fun d => d.original_index)
      ((rawDirectives tree lines).map fun d => d.original_index) :=
    (List.perm_insertionSort startLE _).map _
  have p3 := p1.trans p2
  rw [map_orig_raw] at p3
  exact p3.symm.nodup (List.nodup_range _)

theorem extract_orig_sorted (tree : List Construct) (lines : List Line) :
    (extract_dated_directives tree lines).Pairwise origLE := by
  haveI : IsTotal DatedDirective origLE := ⟨origLE_total⟩
  haveI : IsTrans DatedDirective origLE := ⟨fun a b c h1 h2 => origLE_trans h1 h2⟩
  exact List.sorted_insertionSort origLE _

theorem extract_orig_strict (tree : List Construct) (lines : List Line) :
    (extract_dated_directives tree lines).Pairwise
      fun a b => a.original_index < b.original_index := by
  have hs := extract_orig_sorted tree lines
  have hn := extract_orig_nodup tree lines
  have hne : (extract_dated_directives tree lines).Pairwise
      fun a b => a.original_index ≠ b.original_index := List.pairwise_map.mp hn
  exact (hs.and hne).imp fun h => lt_of_le_of_ne h.1 h.2

/-- C4: stability.  For every sortable group `g` of the pipeline, the sorted
output restricted to the directives carrying any fixed date key `dk` is
byte-for-byte the same subsequence as in `g` (so equal-date directives keep
their original relative order), and the sorted output is ordered by the
comparator "date ascending, ties broken by ascending `original_index`"
(`dirLE`). -/
theorem C4_stability (tree : List Construct) (lines : List Line) (dk : String)
    (g : List DatedDirective)
    (hg : g ∈ identify_sortable_groups (extract_dated_directives tree lines)
      (find_boundaries tree)) :
    (sortGroup g).filter (fun x => decide (x.date = dk))
      = g.filter (fun x => decide (x.date = dk)) ∧
    (sortGroup g).Pairwise dirLE := by
  have hstrict : g.Pairwise fun a b => a.original_index < b.original_index :=
    List.Pairwise.sublist (groups_sublist hg) (extract_orig_strict tree lines)
  haveI : IsTotal DatedDirective dirLE := ⟨dirLE_total⟩
  haveI : IsTrans DatedDirective dirLE := ⟨fun a b c h1 h2 => dirLE_trans h1 h2⟩
  have hsorted : (sortGroup g).Pairwise dirLE := List.sorted_insertionSort dirLE g
  have hperm : List.Perm (sortGroup g) g := List.perm_insertionSort dirLE g
  refine ⟨?_, hsorted⟩
  have hfperm : List.Perm ((sortGroup g).filter fun x => decide (x.date = dk))
      (g.filter fun x => decide (x.date = dk)) := hperm.filter _
  have hr : (g.filter (fun x => decide (x.date = dk))).Pairwise
      (fun a b => a.original_index < b.original_index) :=
    List.Pairwise.sublist (List.filter_sublist _) hstrict
  have hl1 : ((sortGroup g).filter (fun x => decide (x.date = dk))).Pairwise dirLE :=
    List.Pairwise.sublist (List.filter_sublist _) hsorted
  have hl2 : ((sortGroup g).filter (fun x => decide (x.date = dk))).Pairwise
      fun a b => a.original_index ≤ b.original_index := by
    refine List.Pairwise.imp_of_mem ?_ hl1
    intro a b ha hb hab
    have hda : a.date = dk := of_decide_eq_true (List.mem_filter.mp ha).2
    have hdb : b.date = dk := of_decide_eq_true (List.mem_filter.mp hb).2
    rcases hab with h | ⟨-, hii⟩
    · exfalso
      rw [hda, hdb, dateLt_irrefl] at h
      cases h
    · exact hii
  have hnel : ((sortGroup g).filter (fun x => decide (x.date = dk))).Pairwise
      fun a b => a.original_index ≠ b.original_index := by
    have h1 : ((g.filter (fun x => decide (x.date = dk))).map
        fun d => d.original_index).Nodup :=
      List.pairwise_map.mpr (hr.imp fun h => Nat.ne_of_lt h)
    have h2 : (((sortGroup g).filter (fun x => decide (x.date = dk))).map
        fun d => d.original_index).Nodup :=
      ((hfperm.map _).nodup_iff).mpr h1
    exact List.pairwise_map.mp h2
  have hl3 : ((sortGroup g).filter (fun x => decide (x.date = dk))).Pairwise
      fun a b => a.original_index < b.original_index :=
    (hl2.and hnel).imp fun h => lt_of_le_of_ne h.1 h.2
  haveI : IsAntisymm DatedDirective fun a b => a.original_index < b.original_index :=
    ⟨fun a b h h' => absurd (lt_trans h h') (lt_irrefl _)⟩
  exact List.eq_of_perm_of_sorted hfperm hl3 hr

/-- Witness for C4 at a concrete pipeline group with two same-date
directives. -/
theorem C4_stability_witness :
    ([⟨0, 0, "2020-01-01", [], 0, 0, 0, 0⟩, ⟨1, 1, "2020-01-01", [], 0, 0, 0, 1⟩] :
        List DatedDirective) ∈ identify_sortable_groups
      (extract_dated_directives
        [⟨0, 1, 0, some "2020-01-01"⟩, ⟨1, 2, 0, some "2020-01-01"⟩] [])
      (find_boundaries [⟨0, 1, 0, some "2020-01-01"⟩, ⟨1, 2, 0, some "2020-01-01"⟩]) ∧
    ((sortGroup [⟨0, 0, "2020-01-01", [], 0, 0, 0, 0⟩, ⟨1, 1, "2020-01-01", [], 0, 0, 0, 1⟩]).filter
        (fun x => decide (x.date = "2020-01-01"))
      = ([⟨0, 0, "2020-01-01", [], 0, 0, 0, 0⟩, ⟨1, 1, "2020-01-01", [], 0, 0, 0, 1⟩] :
          List DatedDirective).filter (fun x => decide (x.date = "2020-01-01")) ∧
     (sortGroup [⟨0, 0, "2020-01-01", [], 0, 0, 0, 0⟩,
        ⟨1, 1, "2020-01-01", [], 0, 0, 0, 1⟩]).Pairwise dirLE) :=
  ⟨by decide,
   C4_stability [⟨0, 1, 0, some "2020-01-01"⟩, ⟨1, 2, 0, some "2020-01-01"⟩] []
     "2020-01-01"
     [⟨0, 0, "2020-01-01", [], 0, 0, 0, 0⟩, ⟨1, 1, "2020-01-01", [], 0, 0, 0, 1⟩]
     (by decide)⟩

/-! ### C7: the boundary detector reports only top-level siblings -/

/-- C7 (spec-modelled provider): every line number reported by
`find_boundaries` is the start row of a tree construct lacking a date field,
and — under the spec's invariant that top-level constructs occupy disjoint,
increasing line spans — no reported line lies inside any dated directive's
own (column-0-adjusted) line span.  In the provider model the tree holds the
top-level constructs, so every report is a top-level sibling. -/
theorem C7_boundaries_top_level (tree : List Construct)
    (hord : tree.Pairwise fun c d => adjEnd c < d.startRow)
    (hspan : ∀ c ∈ tree, c.startRow ≤ adjEnd c) :
    ∀ β ∈ find_boundaries tree,
      (∃ c ∈ tree, c.date = none ∧ β = c.startRow) ∧
      ∀ d ∈ tree, d.date.isSome → ¬(d.startRow ≤ β ∧ β ≤ adjEnd d) := by
  intro β hβ
  rw [find_boundaries, List.mem_filterMap] at hβ
  obtain ⟨c, hc, hcβ⟩ := hβ
  have hcnone : c.date = none := by
    by_cases h : c.date.isNone = true
    · exact Option.isNone_iff_eq_none.mp h
    · rw [if_neg h] at hcβ
      cases hcβ
  have hβeq : β = c.startRow := by
    rw [if_pos (Option.isNone_iff_eq_none.mpr hcnone)] at hcβ
    cases hcβ
    rfl
  refine ⟨⟨c, hc, hcnone, hβeq⟩, ?_⟩
  intro d hd hdsome
  have hdc : d ≠ c := by
    intro h
    rw [h, hcnone] at hdsome
    cases hdsome
  have hsym : Symmetric fun x y : Construct =>
      adjEnd x < y.startRow ∨ adjEnd y < x.startRow := fun x y h => h.symm
  have hord' : tree.Pairwise fun x y => adjEnd x < y.startRow ∨ adjEnd y < x.startRow :=
    hord.imp fun h => Or.inl h
  have hsep := hord'.forall hsym hd hc hdc
  rintro ⟨hd1, hd2⟩
  rcases hsep with h | h
  · rw [hβeq] at hd2
    omega
  · have hcs := hspan c hc
    rw [hβeq] at hd1
    omega

/-- Witness for C7: a comment-like non-dated construct on line 0 followed by
a dated directive spanning line 1, instantiated at the reported boundary 0. -/
theorem C7_boundaries_top_level_witness :
    (([⟨0, 0, 11, none⟩, ⟨1, 2, 0, some "2020-01-01"⟩] :
        List Construct).Pairwise fun c d => adjEnd c < d.startRow) ∧
    (∀ c ∈ ([⟨0, 0, 11, none⟩, ⟨1, 2, 0, some "2020-01-01"⟩] : List Construct),
      c.startRow ≤ adjEnd c) ∧
    (0 ∈ find_boundaries [⟨0, 0, 11, none⟩, ⟨1, 2, 0, some "2020-01-01"⟩]) ∧
    ((∃ c ∈ ([⟨0, 0, 11, none⟩, ⟨1, 2, 0, some "2020-01-01"⟩] : List Construct),
        c.date = none ∧ 0 = c.startRow) ∧
      ∀ d ∈ ([⟨0, 0, 11, none⟩, ⟨1, 2, 0, some "2020-01-01"⟩] : List Construct),
        d.date.isSome → ¬(d.startRow ≤ 0 ∧ 0 ≤ adjEnd d)) :=
  ⟨by decide, by decide, by decide,
   C7_boundaries_top_level [⟨0, 0, 11, none⟩, ⟨1, 2, 0, some "2020-01-01"⟩]
     (by decide) (by decide) 0 (by decide)⟩

/-! ### Model fidelity against the crate's own test suite

The following theorems replay tests from
`crates/beancount-formatter/src/tests.rs` inside the embedding, with the
tree argument holding the top-level constructs tree-sitter reports for the
given text.  Each reproduces the snapshot the Rust test asserts. -/

/-- Replay of `test_basic_sorting`: two transactions in reverse date order,
separated by one blank line, are swapped and the blank line is kept. -/
theorem model_test_basic_sorting :
    sortModel
      "2025-12-05 * \"Transaction 3\"\n  Assets:Checking  -10 EUR\n\n2025-12-01 * \"Transaction 1\"\n  Assets:Checking  -20 EUR\n"
      [⟨0, 2, 0, some "2025-12-05"⟩, ⟨3, 5, 0, some "2025-12-01"⟩]
    = "2025-12-01 * \"Transaction 1\"\n  Assets:Checking  -20 EUR\n\n2025-12-05 * \"Transaction 3\"\n  Assets:Checking  -10 EUR\n" := by
  decide

/-- Replay of `test_already_sorted`: a sorted file is returned unchanged. -/
theorem model_test_already_sorted :
    sortModel
      "2025-12-01 * \"Transaction 1\"\n  Assets:Checking  -20 EUR\n\n2025-12-05 * \"Transaction 3\"\n  Assets:Checking  -10 EUR\n"
      [⟨0, 2, 0, some "2025-12-01"⟩, ⟨3, 5, 0, some "2025-12-05"⟩]
    = "2025-12-01 * \"Transaction 1\"\n  Assets:Checking  -20 EUR\n\n2025-12-05 * \"Transaction 3\"\n  Assets:Checking  -10 EUR\n" := by
  decide

/-- Replay of `test_option_boundary`: no sorting happens across an `option`
line, even though the dates around it are out of order. -/
theorem model_test_option_boundary :
    sortModel
      "2025-12-05 balance Assets:B  200 USD\n\noption \"operating_currency\" \"USD\"\n\n2025-12-01 balance Assets:A  100 USD\n"
      [⟨0, 1, 0, some "2025-12-05"⟩, ⟨2, 3, 0, none⟩, ⟨4, 5, 0, some "2025-12-01"⟩]
    = "2025-12-05 balance Assets:B  200 USD\n\noption \"operating_currency\" \"USD\"\n\n2025-12-01 balance Assets:A  100 USD\n" := by
  decide

/-- Replay of `test_balance_mixed_blanks_three`: the blank line travels with
the originally-adjacent pairs, matching the Rust snapshot. -/
theorem model_test_balance_mixed_blanks_three :
    sortModel
      "2026-01-03 balance Assets:C  300 USD\n\n2026-01-02 balance Assets:B  200 USD\n2026-01-01 balance Assets:A  100 USD\n"
      [⟨0, 1, 0, some "2026-01-03"⟩, ⟨2, 3, 0, some "2026-01-02"⟩, ⟨3, 4, 0, some "2026-01-01"⟩]
    = "2026-01-01 balance Assets:A  100 USD\n2026-01-02 balance Assets:B  200 USD\n\n2026-01-03 balance Assets:C  300 USD\n" := by
  decide

/-- Replay of `test_unchanged_open_and_pad_directives_same_date`: four
same-date directives with an interior blank line come back byte-for-byte
(the tie forces the reconstruction path, which reproduces the bytes because
the interior blank line is genuinely empty). -/
theorem model_test_same_date_blank_preserved :
    sortModel
      "2020-01-01 open Assets:BIBEssen:Checking EUR\n2020-01-01 pad Assets:BIBEssen:Checking Equity:Opening-Balances\n\n2020-01-01 open Assets:Revolut EUR\n2020-01-01 open Expenses:Revolut:Fees EUR\n"
      [⟨0, 1, 0, some "2020-01-01"⟩, ⟨1, 2, 0, some "2020-01-01"⟩,
       ⟨3, 4, 0, some "2020-01-01"⟩, ⟨4, 5, 0, some "2020-01-01"⟩]
    = "2020-01-01 open Assets:BIBEssen:Checking EUR\n2020-01-01 pad Assets:BIBEssen:Checking Equity:Opening-Balances\n\n2020-01-01 open Assets:Revolut EUR\n2020-01-01 open Expenses:Revolut:Fees EUR\n" := by
  decide

/-- Replay of `test_empty_file` and `test_unchanged_empty_file`. -/
theorem model_test_empty_file : sortModel "" [] = "" := by
  decide

end Beanfmt
